import Mathlib

/-!
Verification development for the Cloudflare-Worker page-manager CMS
(`src/n1-page-manager.js` and its near-duplicate `src/unnamed/part_001`).

The page store maps string keys to raw string values.  A stored value is
either literal text/HTML content or a JSON-encoded file record
`{fileName, mimeType, content}` where `content` is a
`data:<mime>;base64,<payload>` URI.  We shallowly embed the store, the
JSON classification performed by `servePage`, the base64 encoding and
decoding used by `savePage`/`serveFileDownload` (`btoa`/`atob`), the
HTML-escaping and markup heuristic, and the `savePage`, `renamePage`
and `listPages` handlers.

JavaScript strings are modelled as Lean `String`/`List Char`; bytes are
`Nat` with explicit `< 256` bounds; fallible operations (JSON.parse,
atob, decodeURIComponent, handlers that throw) return `Option` or a
dedicated error constructor.
-/

/-- The KV namespace: a partial map from keys to raw string values
(`KV.get` returns `null` for absent keys, modelled by `none`). -/
def Store : Type := String → Option String

/-- `KV.put key v`: unconditional overwrite. -/
def kvPut (store : Store) (key v : String) : Store :=
  fun k => if k = key then some v else store k

/-- `KV.delete key`: idempotent removal. -/
def kvDelete (store : Store) (key : String) : Store :=
  fun k => if k = key then none else store k

/-! ### The JSON value model

`JSON.parse` produces a JavaScript value.  Numbers are kept as their
parsed textual components (sign, integer digits, fraction digits,
exponent sign, exponent digits) rather than as floats; the only use the
code makes of a number is its truthiness, and in `servePage` the
truthiness conjunct is absorbed (only objects can have a truthy
`fileName` field, and objects are always truthy), so double rounding
(e.g. `1e-400` underflowing to `0`) cannot affect any modelled
behaviour. -/

inductive Json where
  | null : Json
  | bool (b : Bool) : Json
  | num (neg : Bool) (ip : List Char) (fp : List Char) (eneg : Bool) (ep : List Char) : Json
  | str (s : String) : Json
  | arr (elems : List Json) : Json
  | obj (fields : List (String × Json)) : Json

/-- JavaScript truthiness of a parsed JSON value
(`undefined`/`null`/`false`/`±0`/`""` are falsy). -/
def Json.truthy : Json → Bool
  | Json.null => false
  | Json.bool b => b
  | Json.num _ ip fp _ _ => !(ip.all (fun c => c = '0') && fp.all (fun c => c = '0'))
  | Json.str s => !(s = "")
  | Json.arr _ => true
  | Json.obj _ => true

/-- Property lookup on the last-wins object built by `JSON.parse`
(duplicate keys: the later binding overwrites the earlier one);
property access on a non-object JSON value yields `undefined`. -/
def lookupLast : List (String × Json) → String → Option Json
  | [], _ => none
  | (k', v) :: rest, k =>
    match lookupLast rest k with
    | some r => some r
    | none => if k' = k then some v else none

def Json.getField : Json → String → Option Json
  | Json.obj fields, k => lookupLast fields k
  | _, _ => none

/-- Truthiness of `parsedData.fileName` (`undefined` when absent or when
`parsedData` is not an object). -/
def fileNameTruthy (p : Json) : Bool :=
  match p.getField "fileName" with
  | some v => v.truthy
  | none => false

/-! ### The JSON parser (`JSON.parse`)

Recursive descent over `List Char`, following the ECMAScript JSON
grammar: optional whitespace (space, tab, LF, CR) around tokens,
strings with the `\" \\ \/ \b \f \n \r \t \uXXXX` escapes and no raw
control characters, numbers `-?int frac? exp?`, and the literals
`true`/`false`/`null`.  Character-level loops are structurally
recursive; nesting of composite values is bounded by a fuel argument
(`parseJson` supplies `length + 1`, which always suffices because every
recursive call consumes at least one character first). -/

def skipWs : List Char → List Char
  | [] => []
  | c :: rest =>
    if c = ' ' ∨ c = '\t' ∨ c = '\n' ∨ c = '\r' then skipWs rest else c :: rest

def hexVal (c : Char) : Option Nat :=
  if '0' ≤ c ∧ c ≤ '9' then some (c.toNat - 48)
  else if 'A' ≤ c ∧ c ≤ 'F' then some (c.toNat - 55)
  else if 'a' ≤ c ∧ c ≤ 'f' then some (c.toNat - 87)
  else none

/-- Single-character string escapes of JSON. -/
def escChar (c : Char) : Option Char :=
  if c = '"' then some '"'
  else if c = '\\' then some '\\'
  else if c = '/' then some '/'
  else if c = 'b' then some (Char.ofNat 8)
  else if c = 'f' then some (Char.ofNat 12)
  else if c = 'n' then some '\n'
  else if c = 'r' then some '\r'
  else if c = 't' then some '\t'
  else none

/-!
`parseStringBody` parses the body of a JSON string after the opening
quote, up to and including the closing quote, and returns the decoded
characters and the remaining input; escape sequences are handled by
`parseEscape`/`parseEscapeU`.  (Lone UTF-16 surrogates from `\uXXXX`,
which Lean `Char` cannot represent, fall back to `Char.ofNat`'s
default; no claim involves them.) -/
mutual

def parseStringBody : List Char → Option (List Char × List Char)
  | [] => none
  | c :: rest =>
    if c = '"' then some ([], rest)
    else if c = '\\' then parseEscape rest
    else if 32 ≤ c.toNat then
      (parseStringBody rest).map fun p => (c :: p.1, p.2)
    else none

def parseEscape : List Char → Option (List Char × List Char)
  | [] => none
  | e :: rest2 =>
    if e = 'u' then parseEscapeU rest2
    else
      (escChar e).bind fun ec =>
      (parseStringBody rest2).map fun p => (ec :: p.1, p.2)

def parseEscapeU : List Char → Option (List Char × List Char)
  | h1 :: h2 :: h3 :: h4 :: rest3 =>
    (hexVal h1).bind fun a =>
    (hexVal h2).bind fun b =>
    (hexVal h3).bind fun c3 =>
    (hexVal h4).bind fun d =>
    (parseStringBody rest3).map fun p =>
      (Char.ofNat (a * 4096 + b * 256 + c3 * 16 + d) :: p.1, p.2)
  | _ => none

end

def takeDigits : List Char → List Char × List Char
  | [] => ([], [])
  | c :: rest =>
    if c.isDigit then
      let p := takeDigits rest
      (c :: p.1, p.2)
    else ([], c :: rest)

def parseExpPart (neg : Bool) (ip fp : List Char) (cs : List Char) :
    Option (Json × List Char) :=
  match cs with
  | [] => some (Json.num neg ip fp false [], [])
  | c :: r =>
    if c = 'e' ∨ c = 'E' then
      let p : Bool × List Char :=
        match r with
        | [] => (false, r)
        | c2 :: r2 =>
          if c2 = '+' then (false, r2)
          else if c2 = '-' then (true, r2)
          else (false, r)
      let d := takeDigits p.2
      if d.1 = [] then none else some (Json.num neg ip fp p.1 d.1, d.2)
    else some (Json.num neg ip fp false [], cs)

def parseFracExp (neg : Bool) (ip : List Char) (cs : List Char) :
    Option (Json × List Char) :=
  match cs with
  | [] => parseExpPart neg ip [] []
  | c :: r =>
    if c = '.' then
      let d := takeDigits r
      if d.1 = [] then none else parseExpPart neg ip d.1 d.2
    else parseExpPart neg ip [] cs

def parseNumber (cs : List Char) : Option (Json × List Char) :=
  let p : Bool × List Char :=
    match cs with
    | [] => (false, cs)
    | c :: r => if c = '-' then (true, r) else (false, cs)
  match p.2 with
  | [] => none
  | c :: r =>
    if c = '0' then parseFracExp p.1 ['0'] r
    else if c.isDigit then
      let d := takeDigits r
      parseFracExp p.1 (c :: d.1) d.2
    else none

/-- List-prefix test (`startsWithL pat cs`). -/
def startsWithL : List Char → List Char → Bool
  | [], _ => true
  | _ :: _, [] => false
  | p :: ps, c :: cs => p == c && startsWithL ps cs

mutual

def parseValue : Nat → List Char → Option (Json × List Char)
  | 0, _ => none
  | _ + 1, [] => none
  | fuel + 1, c :: rest =>
    if c = '"' then
      (parseStringBody rest).map fun p => (Json.str (String.mk p.1), p.2)
    else if c = '{' then
      match skipWs rest with
      | [] => none
      | c2 :: r2 =>
        if c2 = '}' then some (Json.obj [], r2)
        else (parseMembers fuel (c2 :: r2)).map fun p => (Json.obj p.1, p.2)
    else if c = '[' then
      match skipWs rest with
      | [] => none
      | c2 :: r2 =>
        if c2 = ']' then some (Json.arr [], r2)
        else (parseElems fuel (c2 :: r2)).map fun p => (Json.arr p.1, p.2)
    else if startsWithL "true".data (c :: rest) then
      some (Json.bool true, (c :: rest).drop 4)
    else if startsWithL "false".data (c :: rest) then
      some (Json.bool false, (c :: rest).drop 5)
    else if startsWithL "null".data (c :: rest) then
      some (Json.null, (c :: rest).drop 4)
    else if c = '-' ∨ c.isDigit then parseNumber (c :: rest)
    else none

def parseMembers : Nat → List Char → Option (List (String × Json) × List Char)
  | 0, _ => none
  | _ + 1, [] => none
  | fuel + 1, c :: rest =>
    if c = '"' then
      (parseStringBody rest).bind fun ks =>
      match skipWs ks.2 with
      | [] => none
      | c2 :: r2 =>
        if c2 = ':' then
          (parseValue fuel (skipWs r2)).bind fun vs =>
          match skipWs vs.2 with
          | [] => none
          | c3 :: r3 =>
            if c3 = ',' then
              (parseMembers fuel (skipWs r3)).map fun ms =>
                ((String.mk ks.1, vs.1) :: ms.1, ms.2)
            else if c3 = '}' then some ([(String.mk ks.1, vs.1)], r3)
            else none
        else none
    else none

def parseElems : Nat → List Char → Option (List Json × List Char)
  | 0, _ => none
  | fuel + 1, cs =>
    (parseValue fuel cs).bind fun vs =>
    match skipWs vs.2 with
    | [] => none
    | c2 :: r2 =>
      if c2 = ',' then
        (parseElems fuel (skipWs r2)).map fun es => (vs.1 :: es.1, es.2)
      else if c2 = ']' then some ([vs.1], r2)
      else none

end

/-- `JSON.parse`: the whole input, surrounded by optional whitespace,
must be a single JSON value; `none` models a thrown `SyntaxError`. -/
def parseJson (s : String) : Option Json :=
  match parseValue (s.length + 1) (skipWs s.data) with
  | some (v, rest) => if skipWs rest = [] then some v else none
  | none => none

/-! ### The markup heuristic and HTML escaping of `servePage`

For non-JSON content the code tests
`/<html|<!DOCTYPE|<body|<div|<script|<style/i.test(data)`: a
case-insensitive search for any of six literal substrings.  The
`i`-flag canonicalisation is modelled by ASCII `Char.toUpper` (the
patterns are pure ASCII). -/

def ciEq (a b : Char) : Bool := a.toUpper == b.toUpper

def startsWithCI : List Char → List Char → Bool
  | [], _ => true
  | _ :: _, [] => false
  | p :: ps, c :: cs => ciEq p c && startsWithCI ps cs

def containsCI (pat : List Char) : List Char → Bool
  | [] => pat.isEmpty
  | c :: rest => startsWithCI pat (c :: rest) || containsCI pat rest

def looksLikeMarkup (s : String) : Bool :=
  containsCI "<html".data s.data || containsCI "<!DOCTYPE".data s.data ||
  containsCI "<body".data s.data || containsCI "<div".data s.data ||
  containsCI "<script".data s.data || containsCI "<style".data s.data

/-- One global single-character regex replace,
`s.replace(/c/g, rep)`. -/
def replaceAllChar (pat : Char) (rep : List Char) (s : List Char) : List Char :=
  s.flatMap fun c => if c = pat then rep else [c]

/-- The escaping `servePage` applies to plain text before wrapping it in
`<pre>`: `.replace(/&/g,'&amp;').replace(/</g,'&lt;').replace(/>/g,'&gt;')`,
in that order. -/
def escapeHtml (s : String) : String :=
  String.mk (replaceAllChar '>' "&gt;".data
    (replaceAllChar '<' "&lt;".data
      (replaceAllChar '&' "&amp;".data s.data)))

/-! ### base64: `btoa` composed with the byte-to-char loop, and `atob` -/

def b64Chars : List Char :=
  "ABCDEFGHIJKLMNOPQRSTUVWXYZabcdefghijklmnopqrstuvwxyz0123456789+/".data

def b64Enc (n : Nat) : Char := b64Chars.getD n 'A'

def b64DecAux : List Char → Nat → Char → Option Nat
  | [], _, _ => none
  | x :: xs, i, c => if x = c then some i else b64DecAux xs (i + 1) c

def b64Dec (c : Char) : Option Nat := b64DecAux b64Chars 0 c

/-- `arrayBufferToBase64`: builds the binary string from the bytes and
applies `btoa`, i.e. standard base64 with `=` padding, 3 bytes → 4
chars (`b >> 2`, `((b1 & 3) << 4) | (b2 >> 4)`,
`((b2 & 15) << 2) | (b3 >> 6)`, `b3 & 63`). -/
def encChunks : List Nat → List Char
  | [] => []
  | [a] => [b64Enc (a / 4), b64Enc (a % 4 * 16), '=', '=']
  | [a, b] => [b64Enc (a / 4), b64Enc (a % 4 * 16 + b / 16), b64Enc (b % 16 * 4), '=']
  | a :: b :: c :: rest =>
    b64Enc (a / 4) :: b64Enc (a % 4 * 16 + b / 16) ::
    b64Enc (b % 16 * 4 + c / 64) :: b64Enc (c % 64) :: encChunks rest

def arrayBufferToBase64 (bytes : List Nat) : String := String.mk (encChunks bytes)

/-- `atob` inner loop after whitespace removal and padding stripping:
4 chars → 3 bytes, with final partial chunks of 2 or 3 chars yielding
1 or 2 bytes (leftover bits discarded, per forgiving-base64). -/
def decodeChunks : List Char → Option (List Nat)
  | [] => some []
  | [c1, c2] =>
    (b64Dec c1).bind fun n1 => (b64Dec c2).map fun n2 => [n1 * 4 + n2 / 16]
  | [c1, c2, c3] =>
    (b64Dec c1).bind fun n1 => (b64Dec c2).bind fun n2 => (b64Dec c3).map fun n3 =>
      [n1 * 4 + n2 / 16, n2 % 16 * 16 + n3 / 4]
  | c1 :: c2 :: c3 :: c4 :: rest =>
    (b64Dec c1).bind fun n1 => (b64Dec c2).bind fun n2 =>
    (b64Dec c3).bind fun n3 => (b64Dec c4).bind fun n4 =>
    (decodeChunks rest).map fun bs =>
      (n1 * 4 + n2 / 16) :: (n2 % 16 * 16 + n3 / 4) :: (n3 % 4 * 64 + n4) :: bs
  | [_] => none

/-- ASCII whitespace removed by forgiving-base64 (tab, LF, FF, CR, space). -/
def isB64Ws (c : Char) : Bool :=
  c = '\t' ∨ c = '\n' ∨ c = Char.ofNat 12 ∨ c = '\r' ∨ c = ' '

def stripOneEq (cs : List Char) : List Char :=
  if cs.getLast? = some '=' then cs.dropLast else cs

/-- `atob` per the WHATWG forgiving-base64 decode: strip ASCII
whitespace; if the length is a multiple of 4, remove up to two trailing
`=`; fail when the remaining length is `1 mod 4` or any remaining
character is outside the alphabet; `none` models the thrown
`InvalidCharacterError`. -/
def atobCore (cs : List Char) : Option (List Nat) :=
  if cs.length % 4 = 1 then none else decodeChunks cs

def atob (s : String) : Option (List Nat) :=
  if (s.data.filter fun c => !isB64Ws c).length % 4 = 0 then
    atobCore (stripOneEq (stripOneEq (s.data.filter fun c => !isB64Ws c)))
  else
    atobCore (s.data.filter fun c => !isB64Ws c)

/-! ### `content.split('base64,')[1]` -/

def bsep : List Char := "base64,".data

/-- First occurrence split: `some (before, after)` at the first
occurrence of `"base64,"`, else `none`. -/
def splitFirst : List Char → Option (List Char × List Char)
  | [] => none
  | c :: rest =>
    if startsWithL bsep (c :: rest) then some ([], (c :: rest).drop 7)
    else (splitFirst rest).map fun p => (c :: p.1, p.2)

/-- `content.split('base64,')[1]`: the text strictly between the first
and second occurrence of the separator (to the end when the separator
occurs only once); `none` (`undefined`) when it does not occur. -/
def splitIndex1 (cs : List Char) : Option (List Char) :=
  (splitFirst cs).map fun p =>
    match splitFirst p.2 with
    | none => p.2
    | some q => q.1

/-- The payload extraction of `serveFileDownload`:
`atob(content.split('base64,')[1])` (passing `undefined` to `atob`
coerces to the 9-character string `"undefined"`, which `atob` rejects —
modelled as `none`). -/
def decodeDataUri (content : String) : Option (List Nat) :=
  match splitIndex1 content.data with
  | none => none
  | some b => atob (String.mk b)

/-! ### `decodeURIComponent`

Strict percent-decoding with UTF-8 sequence validation (overlong
encodings and surrogate code points rejected); `none` models the thrown
`URIError`.  Astral code points, which a JavaScript string holds as a
surrogate pair, are a single Lean `Char`. -/

def decodeURIChars : List Char → Option (List Char)
  | [] => some []
  | '%' :: h1 :: h2 :: rest =>
    (hexVal h1).bind fun a => (hexVal h2).bind fun b =>
    let byte1 := a * 16 + b
    if byte1 < 128 then (decodeURIChars rest).map fun t => Char.ofNat byte1 :: t
    else if 194 ≤ byte1 ∧ byte1 ≤ 223 then
      match rest with
      | '%' :: h3 :: h4 :: rest2 =>
        (hexVal h3).bind fun a2 => (hexVal h4).bind fun b2 =>
        let byte2 := a2 * 16 + b2
        if 128 ≤ byte2 ∧ byte2 ≤ 191 then
          (decodeURIChars rest2).map fun t =>
            Char.ofNat ((byte1 - 192) * 64 + (byte2 - 128)) :: t
        else none
      | _ => none
    else if 224 ≤ byte1 ∧ byte1 ≤ 239 then
      match rest with
      | '%' :: h3 :: h4 :: '%' :: h5 :: h6 :: rest2 =>
        (hexVal h3).bind fun a2 => (hexVal h4).bind fun b2 =>
        (hexVal h5).bind fun a3 => (hexVal h6).bind fun b3 =>
        let byte2 := a2 * 16 + b2
        let byte3 := a3 * 16 + b3
        let lo2 := if byte1 = 224 then 160 else 128
        let hi2 := if byte1 = 237 then 159 else 191
        if (lo2 ≤ byte2 ∧ byte2 ≤ hi2) ∧ (128 ≤ byte3 ∧ byte3 ≤ 191) then
          (decodeURIChars rest2).map fun t =>
            Char.ofNat ((byte1 - 224) * 4096 + (byte2 - 128) * 64 + (byte3 - 128)) :: t
        else none
      | _ => none
    else if 240 ≤ byte1 ∧ byte1 ≤ 244 then
      match rest with
      | '%' :: h3 :: h4 :: '%' :: h5 :: h6 :: '%' :: h7 :: h8 :: rest2 =>
        (hexVal h3).bind fun a2 => (hexVal h4).bind fun b2 =>
        (hexVal h5).bind fun a3 => (hexVal h6).bind fun b3 =>
        (hexVal h7).bind fun a4 => (hexVal h8).bind fun b4 =>
        let byte2 := a2 * 16 + b2
        let byte3 := a3 * 16 + b3
        let byte4 := a4 * 16 + b4
        let lo2 := if byte1 = 240 then 144 else 128
        let hi2 := if byte1 = 244 then 143 else 191
        if (lo2 ≤ byte2 ∧ byte2 ≤ hi2) ∧ (128 ≤ byte3 ∧ byte3 ≤ 191) ∧
            (128 ≤ byte4 ∧ byte4 ≤ 191) then
          (decodeURIChars rest2).map fun t =>
            Char.ofNat ((byte1 - 240) * 262144 + (byte2 - 128) * 4096 +
              (byte3 - 128) * 64 + (byte4 - 128)) :: t
        else none
      | _ => none
    else none
  | '%' :: _ => none
  | c :: rest => (decodeURIChars rest).map fun t => c :: t

def decodeURIComponentM (s : String) : Option String :=
  (decodeURIChars s.data).map String.mk

/-! ### `servePage` -/

/-- The distinct response shapes `servePage` can produce.  `rawHtml`
is `new Response(data, text/html)` (both the markup-heuristic branch
and the JSON-but-not-a-file branch); `escapedPre` is the full HTML page
that wraps the escaped content in a `<pre>` block (titled with the
decoded key); `imagePreview` is the preview page whose `<img src>` is
the stored `content` value; `fileDownload` is the attachment response
(its `Content-Disposition` carries `encodeURIComponent(fileName)`);
`serverError` is the 500 produced when the file branch throws (missing
or non-string `mimeType`/`content`, or an invalid base64 payload). -/
inductive PageView where
  | notFound : PageView
  | rawHtml (body : String) : PageView
  | escapedPre (key : String) (escapedBody : String) : PageView
  | imagePreview (content : Option Json) : PageView
  | fileDownload (fileName : Json) (mimeType : String) (payload : List Nat) : PageView
  | serverError : PageView

/-- The file branch of `servePage`:
`const {fileName, mimeType, content} = parsedData` followed by
`mimeType.startsWith('image/') ? serveImagePreview(content) :
serveFileDownload(fileName, mimeType, content)`. -/
def serveFileRecord (p : Json) : PageView :=
  match p.getField "mimeType" with
  | some (Json.str mt) =>
    if startsWithL "image/".data mt.data then PageView.imagePreview (p.getField "content")
    else
      match p.getField "content" with
      | some (Json.str ct) =>
        match decodeDataUri ct with
        | some bytes =>
          PageView.fileDownload ((p.getField "fileName").getD Json.null) mt bytes
        | none => PageView.serverError
      | _ => PageView.serverError
  | _ => PageView.serverError

/-- `servePage`: look the key up (`!data` treats both `null` and the
empty string as absent → 404); try `JSON.parse`; on failure serve the
raw data when the markup heuristic fires, else the escaped
`<pre>`-wrapped page; on success serve the file record when
`parsedData && parsedData.fileName` is truthy, else the raw data as
`text/html`.  The `<pre>` page's title evaluates
`decodeURIComponent(key)` (n1-page-manager.js:235, part_001:331): for
an undecodable key the `URIError` escapes to `handleRequest`'s catch
and the request fails with a 500, modelled as `serverError`.  No other
branch of `servePage` decodes the key. -/
def servePage (store : Store) (key : String) : PageView :=
  match store key with
  | none => PageView.notFound
  | some data =>
    if data = "" then PageView.notFound
    else
      match parseJson data with
      | none =>
        if looksLikeMarkup data then PageView.rawHtml data
        else
          match decodeURIComponentM key with
          | some _ => PageView.escapedPre key (escapeHtml data)
          | none => PageView.serverError
      | some p =>
        if p.truthy && fileNameTruthy p then serveFileRecord p
        else PageView.rawHtml data

/-! ### `savePage` -/

/-- A multipart upload as seen by `formData.get('file')`. -/
structure UploadFile where
  name : String
  mime : String
  bytes : List Nat

/-- JSON.stringify escaping for one string character: `"`, `\` and the
control characters (named escapes for `\b \t \n \f \r`, `\u00XX`
otherwise); all other characters pass through unchanged. -/
def jsonEscapeChar (c : Char) : List Char :=
  if c = '"' then ['\\', '"']
  else if c = '\\' then ['\\', '\\']
  else if c = Char.ofNat 8 then ['\\', 'b']
  else if c = '\t' then ['\\', 't']
  else if c = '\n' then ['\\', 'n']
  else if c = Char.ofNat 12 then ['\\', 'f']
  else if c = '\r' then ['\\', 'r']
  else if c.toNat < 32 then
    ['\\', 'u', '0', '0',
     "0123456789abcdef".data.getD (c.toNat / 16) '0',
     "0123456789abcdef".data.getD (c.toNat % 16) '0']
  else [c]

def jsonEscape (s : List Char) : List Char := s.flatMap jsonEscapeChar

/-- A JSON string literal: quote, escaped body, quote. -/
def jstr (s : String) : List Char := '"' :: (jsonEscape s.data ++ ['"'])

/-- `JSON.stringify({fileName, mimeType, content})` exactly as emitted:
no whitespace, fields in the insertion order of the object literal. -/
def stringifyFileRecord (fileName mimeType content : String) : String :=
  String.mk ('{' :: (jstr "fileName" ++ ':' :: (jstr fileName ++
    ',' :: (jstr "mimeType" ++ ':' :: (jstr mimeType ++
    ',' :: (jstr "content" ++ ':' :: (jstr content ++ ['}'])))))))

/-- The stored `content` field of an upload:
``data:${mimeType};base64,${base64}``. -/
def dataUriOf (mime b64 : String) : String := "data:" ++ mime ++ ";base64," ++ b64

inductive SaveResult where
  | saved (store : Store) : SaveResult
  | failed : SaveResult

/-- `savePage`: when a non-empty file was uploaded (`file && file.size > 0`)
store the stringified file record built from the file's name, MIME type
and base64-encoded bytes; otherwise store the `content` form field
verbatim (`KV.put` with a `null` content — no `content` field in the
form — throws, reported as the 500 `failed`). -/
def savePage (store : Store) (key : String) (content : Option String)
    (file : Option UploadFile) : SaveResult :=
  match file with
  | some f =>
    if f.bytes.length > 0 then
      SaveResult.saved (kvPut store key
        (stringifyFileRecord f.name f.mime
          (dataUriOf f.mime (arrayBufferToBase64 f.bytes))))
    else
      match content with
      | some c => SaveResult.saved (kvPut store key c)
      | none => SaveResult.failed
  | none =>
    match content with
    | some c => SaveResult.saved (kvPut store key c)
    | none => SaveResult.failed

/-! ### `renamePage` -/

inductive RenameResp where
  | notFound : RenameResp
  | redirect (location : String) : RenameResp

/-- `renamePage`: read the old key (`!data` treats `null` and the empty
string alike as absent → 404 with no write); otherwise
`KV.put(newKey, data)` **then** `KV.delete(oldKey)`, and redirect to the
new key.  The returned store is the resulting state of the KV
namespace. -/
def renamePage (store : Store) (oldKey newKey : String) : RenameResp × Store :=
  match store oldKey with
  | none => (RenameResp.notFound, store)
  | some data =>
    if data = "" then (RenameResp.notFound, store)
    else (RenameResp.redirect ("/" ++ newKey), kvDelete (kvPut store newKey data) oldKey)


/-! ### `listPages` / `serveListPage` -/

inductive ListView where
  | empty : ListView
  | pages (keysInOrder : List String) : ListView

/-- The decoded form a key is compared (and displayed) by. -/
def decodedKey (k : String) : String := (decodeURIComponentM k).getD k

/-- `listPages`: zero keys → the dedicated "no pages" view; otherwise
`[...keys].sort((a, b) => decodeURIComponent(a.name).localeCompare(decodeURIComponent(b.name)))`.
`localeCompare` is an ICU locale-sensitive collation and is taken as a
parameter `cmp`; the sort is modelled as a stable comparison sort
(insertion sort) under `cmp (decode a) (decode b) ≤ 0`.  A key on which
`decodeURIComponent` throws makes the whole request fail with a 500,
modelled by `none`. -/
def listPages (cmp : String → String → Int) (keys : List String) : Option ListView :=
  if keys.isEmpty then some ListView.empty
  else if keys.all fun k => (decodeURIComponentM k).isSome then
    some (ListView.pages
      (List.insertionSort (fun a b => cmp (decodedKey a) (decodedKey b) ≤ 0) keys))
  else none

/-! ### Spec-side characterisations used by the claims -/

/-- Per-character simultaneous escaping of exactly `&`, `<`, `>`
(the spec's description of the escaping; proved equal to the code's
sequential replaces below). -/
def escapeCharSpec (c : Char) : List Char :=
  if c = '&' then "&amp;".data
  else if c = '<' then "&lt;".data
  else if c = '>' then "&gt;".data
  else [c]

/-- A character that JSON.stringify leaves unescaped and that
terminates neither a JSON string nor an escape. -/
abbrev PlainChar (c : Char) : Prop := 32 ≤ c.toNat ∧ c ≠ '"' ∧ c ≠ '\\'

abbrev PlainStr (s : String) : Prop := ∀ c ∈ s.data, PlainChar c

/-- Responses that render the stored value as page content (raw HTML or
the escaped `<pre>` page) rather than as a file. -/
def isContentView : PageView → Bool
  | PageView.rawHtml _ => true
  | PageView.escapedPre _ _ => true
  | _ => false

/-- Responses that render the stored value as a file (inline image
preview or attachment download). -/
def isFileResponse : PageView → Bool
  | PageView.imagePreview _ => true
  | PageView.fileDownload _ _ _ => true
  | _ => false

/-- The properties of every character `btoa` emits that the round-trip
arguments rely on: not base64-whitespace (so `atob`'s filter keeps it),
not a comma (so it cannot complete an occurrence of `"base64,"`), and
plain in the JSON-string sense (so `JSON.stringify`/`JSON.parse` carry
it verbatim). -/
abbrev B64CharOK (c : Char) : Prop :=
  (!isB64Ws c) = true ∧ c ≠ ',' ∧ PlainChar c

/-- A concrete three-way comparator on strings (a stand-in instance of
`localeCompare`, which in every locale orders `"a"` before `"b"`),
used to instantiate the comparator-parametric listing theorem. -/
def listCmp : List Char → List Char → Int
  | [], [] => 0
  | [], _ :: _ => -1
  | _ :: _, [] => 1
  | a :: as, b :: bs => if a < b then -1 else if b < a then 1 else listCmp as bs

def strCmp (a b : String) : Int := listCmp a.data b.data

/-- The classification condition of `servePage`:
`parsedData && parsedData.fileName` after a successful `JSON.parse`
(and `false` when the parse throws). -/
def isFileRecordValue (data : String) : Bool :=
  match parseJson data with
  | some p => p.truthy && fileNameTruthy p
  | none => false

/-! ## Theorems -/

/-! ### Generic helper lemmas -/

theorem kvPut_self (store : Store) (key v : String) : kvPut store key v key = some v := by
  simp [kvPut]

theorem kvDelete_self (store : Store) (key : String) : kvDelete store key key = none := by
  simp [kvDelete]

theorem servePage_of_none {store : Store} {k : String} (h : store k = none) :
    servePage store k = PageView.notFound := by
  simp [servePage, h]

/-! ### C6, C7, C9, C10: `renamePage` -/

/-- **C6.** For distinct keys `k1 ≠ k2` with `k1` holding a non-empty
value `v`, `renamePage k1 k2` writes `v` under `k2` and then deletes
`k1` (the resulting store is literally `kvDelete (kvPut store k2 v) k1`),
after which `k2` holds `v` and a `get` of `k1` is NotFound. -/
theorem C6_rename_moves_value (store : Store) (k1 k2 v : String)
    (hne : k1 ≠ k2) (hv : store k1 = some v) (hvne : v ≠ "") :
    renamePage store k1 k2 =
      (RenameResp.redirect ("/" ++ k2), kvDelete (kvPut store k2 v) k1) ∧
    kvDelete (kvPut store k2 v) k1 k2 = some v ∧
    kvDelete (kvPut store k2 v) k1 k1 = none ∧
    servePage (kvDelete (kvPut store k2 v) k1) k2 = servePage (kvPut store k2 v) k2 ∧
    servePage (kvDelete (kvPut store k2 v) k1) k1 = PageView.notFound := by
  refine ⟨?_, ?_, ?_, ?_, ?_⟩
  · simp only [renamePage, hv]
    rw [if_neg hvne]
  · show (if k2 = k1 then none else kvPut store k2 v k2) = some v
    rw [if_neg (Ne.symm hne), kvPut_self]
  · exact kvDelete_self _ _
  · unfold servePage
    show (match (if k2 = k1 then none else kvPut store k2 v k2) with
      | none => PageView.notFound | some data => _) = _
    rw [if_neg (Ne.symm hne)]
  · exact servePage_of_none (kvDelete_self _ _)

theorem C6_witness :
    ("k1" : String) ≠ "k2" ∧ kvPut (fun _ => none) "k1" "v" "k1" = some "v" ∧
    ("v" : String) ≠ "" ∧
    (renamePage (kvPut (fun _ => none) "k1" "v") "k1" "k2" =
      (RenameResp.redirect ("/" ++ "k2"),
        kvDelete (kvPut (kvPut (fun _ => none) "k1" "v") "k2" "v") "k1") ∧
     kvDelete (kvPut (kvPut (fun _ => none) "k1" "v") "k2" "v") "k1" "k2" = some "v" ∧
     kvDelete (kvPut (kvPut (fun _ => none) "k1" "v") "k2" "v") "k1" "k1" = none ∧
     servePage (kvDelete (kvPut (kvPut (fun _ => none) "k1" "v") "k2" "v") "k1") "k2" =
       servePage (kvPut (kvPut (fun _ => none) "k1" "v") "k2" "v") "k2" ∧
     servePage (kvDelete (kvPut (kvPut (fun _ => none) "k1" "v") "k2" "v") "k1") "k1" =
       PageView.notFound) :=
  ⟨by decide, rfl, by decide,
    C6_rename_moves_value (kvPut (fun _ => none) "k1" "v") "k1" "k2" "v"
      (by decide) rfl (by decide)⟩

/-- **C7.** `renamePage` on an absent source key returns NotFound and
performs no write: the resulting store is exactly the input store. -/
theorem C7_rename_missing_source (store : Store) (oldKey newKey : String)
    (h : store oldKey = none) :
    renamePage store oldKey newKey = (RenameResp.notFound, store) := by
  unfold renamePage
  rw [h]

theorem C7_witness :
    (fun _ => none : Store) "old" = none ∧
    renamePage (fun _ => none) "old" "new" = (RenameResp.notFound, fun _ => none) :=
  ⟨rfl, C7_rename_missing_source (fun _ => none) "old" "new" rfl⟩

/-- **C9.** A key whose stored value is the empty string behaves as
absent at the public interface: `servePage` returns the 404 NotFound
view and `renamePage` from it fails with NotFound (presence is tested
by string truthiness `!data`, and `""` is falsy). -/
theorem C9_empty_value_acts_absent (store : Store) (k k2 : String)
    (h : store k = some "") :
    servePage store k = PageView.notFound ∧
    renamePage store k k2 = (RenameResp.notFound, store) := by
  constructor
  · simp [servePage, h]
  · simp [renamePage, h]

theorem C9_witness :
    kvPut (fun _ => none) "empty" "" "empty" = some "" ∧
    (servePage (kvPut (fun _ => none) "empty" "") "empty" = PageView.notFound ∧
     renamePage (kvPut (fun _ => none) "empty" "") "empty" "other" =
       (RenameResp.notFound, kvPut (fun _ => none) "empty" "")) :=
  ⟨rfl, C9_empty_value_acts_absent (kvPut (fun _ => none) "empty" "") "empty" "other" rfl⟩

/-- **C10.** `renamePage k k` with the old and new key equal deletes the
page: the value is written back under `k` and then `k` is deleted
(`KV.put` before `KV.delete` on the same key), so afterwards the key is
gone and `servePage` returns NotFound. -/
theorem C10_rename_to_self_deletes (store : Store) (k v : String)
    (hv : store k = some v) (hvne : v ≠ "") :
    renamePage store k k =
      (RenameResp.redirect ("/" ++ k), kvDelete (kvPut store k v) k) ∧
    kvDelete (kvPut store k v) k k = none ∧
    servePage (kvDelete (kvPut store k v) k) k = PageView.notFound := by
  refine ⟨?_, kvDelete_self _ _, servePage_of_none (kvDelete_self _ _)⟩
  simp only [renamePage, hv]
  rw [if_neg hvne]

theorem C10_witness :
    kvPut (fun _ => none) "p" "content" "p" = some "content" ∧
    ("content" : String) ≠ "" ∧
    (renamePage (kvPut (fun _ => none) "p" "content") "p" "p" =
      (RenameResp.redirect ("/" ++ "p"),
        kvDelete (kvPut (kvPut (fun _ => none) "p" "content") "p" "content") "p") ∧
     kvDelete (kvPut (kvPut (fun _ => none) "p" "content") "p" "content") "p" "p" = none ∧
     servePage (kvDelete (kvPut (kvPut (fun _ => none) "p" "content") "p" "content") "p") "p" =
       PageView.notFound) :=
  ⟨rfl, by decide,
    C10_rename_to_self_deletes (kvPut (fun _ => none) "p" "content") "p" "content" rfl (by decide)⟩

/-! ### `servePage` unfolding helpers -/

theorem parseJson_empty : parseJson "" = none := rfl

theorem servePage_parse_fail {store : Store} {k data : String}
    (h : store k = some data) (hne : data ≠ "") (hp : parseJson data = none) :
    servePage store k =
      if looksLikeMarkup data then PageView.rawHtml data
      else
        match decodeURIComponentM k with
        | some _ => PageView.escapedPre k (escapeHtml data)
        | none => PageView.serverError := by
  simp [servePage, h, hne, hp]

theorem servePage_parse_some {store : Store} {k data : String} {p : Json}
    (h : store k = some data) (hp : parseJson data = some p) :
    servePage store k =
      if p.truthy && fileNameTruthy p then serveFileRecord p
      else PageView.rawHtml data := by
  have hne : data ≠ "" := by
    intro e
    subst e
    rw [parseJson_empty] at hp
    cases hp
  simp [servePage, h, hne, hp]

theorem truthy_of_fileNameTruthy {p : Json} (h : fileNameTruthy p = true) :
    p.truthy = true := by
  cases p <;> first
    | rfl
    | (exfalso; simp [fileNameTruthy, Json.getField] at h)

/-! ### C2: markup heuristic and escaping for non-JSON values -/

theorem escapeCharSpec_eq_seq (c : Char) :
    ((if c = '&' then "&amp;".data else [c]).flatMap fun x =>
      (if x = '<' then "&lt;".data else [x]).flatMap fun y =>
        if y = '>' then "&gt;".data else [y]) = escapeCharSpec c := by
  by_cases h1 : c = '&'
  · subst h1; decide
  by_cases h2 : c = '<'
  · subst h2; decide
  by_cases h3 : c = '>'
  · subst h3; decide
  simp [escapeCharSpec, h1, h2, h3]

theorem escapeHtml_eq_flatMap (s : String) :
    escapeHtml s = String.mk (s.data.flatMap escapeCharSpec) := by
  unfold escapeHtml replaceAllChar
  rw [List.flatMap_assoc, List.flatMap_assoc]
  rw [funext escapeCharSpec_eq_seq]

/-- **C2, counterexample.**  The claim asserts the escaped `<pre>` page
for every non-JSON, non-markup value, but the `<pre>` page's title
evaluates `decodeURIComponent(key)` (n1-page-manager.js:235): storing
the plain text `"1 < 2"` under the undecodable key `"%FF"` makes the
code throw a `URIError` and return a 500, not the escaped preformatted
block. -/
theorem C2_counterexample :
    parseJson "1 < 2" = none ∧
    looksLikeMarkup "1 < 2" = false ∧
    decodeURIComponentM "%FF" = none ∧
    servePage (kvPut (fun _ => none) "%FF" "1 < 2") "%FF" = PageView.serverError ∧
    servePage (kvPut (fun _ => none) "%FF" "1 < 2") "%FF" ≠
      PageView.escapedPre "%FF" (escapeHtml "1 < 2") := by
  refine ⟨rfl, rfl, rfl, rfl, ?_⟩
  intro hx
  have h1 : servePage (kvPut (fun _ => none) "%FF" "1 < 2") "%FF" =
      PageView.serverError := rfl
  rw [h1] at hx
  exact PageView.noConfusion hx

/-- **C2, amended.** For a stored value that fails to parse as JSON,
`servePage` returns the value as-is (raw HTML response) iff it contains
one of the six markup substrings case-insensitively; otherwise, when
`decodeURIComponent(key)` succeeds, it returns the `<pre>`-wrapped page
whose body is the value with exactly the characters `&`, `<`, `>`
escaped and every other character (whitespace and newlines included)
left unchanged — and when the key is undecodable, the request fails
with a 500 because the `<pre>` page's title decodes the key. -/
theorem C2_nonjson_markup_heuristic (store : Store) (k data : String)
    (h : store k = some data) (hne : data ≠ "") (hp : parseJson data = none) :
    (servePage store k = PageView.rawHtml data ↔ looksLikeMarkup data = true) ∧
    (looksLikeMarkup data = false → (decodeURIComponentM k).isSome = true →
      servePage store k = PageView.escapedPre k (escapeHtml data)) ∧
    (looksLikeMarkup data = false → decodeURIComponentM k = none →
      servePage store k = PageView.serverError) ∧
    escapeHtml data = String.mk (data.data.flatMap escapeCharSpec) ∧
    (∀ c : Char, c ≠ '&' → c ≠ '<' → c ≠ '>' → escapeCharSpec c = [c]) := by
  have hs := servePage_parse_fail h hne hp
  refine ⟨?_, ?_, ?_, escapeHtml_eq_flatMap data, ?_⟩
  · rw [hs]
    cases hm : looksLikeMarkup data
    · cases hd : decodeURIComponentM k <;> simp [hm, hd]
    · simp [hm]
  · intro hm hk
    obtain ⟨u, hu⟩ := Option.isSome_iff_exists.mp hk
    rw [hs]
    simp [hm, hu]
  · intro hm hd
    rw [hs]
    simp [hm, hd]
  · intro c h1 h2 h3
    simp [escapeCharSpec, h1, h2, h3]

theorem C2_witness :
    kvPut (kvPut (fun _ => none) "frag" "<div>hi</div>") "notes2" "1 < 2" "notes2" = some "1 < 2" ∧
    ("1 < 2" : String) ≠ "" ∧
    parseJson "1 < 2" = none ∧
    (decodeURIComponentM "notes2").isSome = true ∧
    (servePage (kvPut (kvPut (fun _ => none) "frag" "<div>hi</div>") "notes2" "1 < 2") "notes2" =
        PageView.rawHtml "1 < 2" ↔ looksLikeMarkup "1 < 2" = true) ∧
    (looksLikeMarkup "1 < 2" = false → (decodeURIComponentM "notes2").isSome = true →
      servePage (kvPut (kvPut (fun _ => none) "frag" "<div>hi</div>") "notes2" "1 < 2") "notes2" =
        PageView.escapedPre "notes2" (escapeHtml "1 < 2")) :=
  ⟨rfl, by decide, rfl, rfl,
    (C2_nonjson_markup_heuristic _ "notes2" "1 < 2" rfl (by decide) rfl).1,
    (C2_nonjson_markup_heuristic _ "notes2" "1 < 2" rfl (by decide) rfl).2.1⟩

/-! ### C1: FileRecord classification -/

/-- **C1, counterexample.**  "Every value not so classified is rendered
as content" fails at an undecodable key: `"hello"` is not classified as
a FileRecord and matches no markup substring, but under the key `"%FF"`
the `<pre>` page's `decodeURIComponent(key)` throws, so the code
returns a 500 — neither a content view nor a file. -/
theorem C1_counterexample :
    isFileRecordValue "hello" = false ∧
    looksLikeMarkup "hello" = false ∧
    decodeURIComponentM "%FF" = none ∧
    servePage (kvPut (fun _ => none) "%FF" "hello") "%FF" = PageView.serverError ∧
    isContentView (servePage (kvPut (fun _ => none) "%FF" "hello") "%FF") = false :=
  ⟨rfl, rfl, rfl, rfl, rfl⟩

/-- **C1, amended.** A stored value is classified as a file record iff
it parses as JSON to a value with a truthy `fileName` property (for the
spec's string-valued `fileName`, truthy = non-empty).  When so
classified, a string `mimeType` starting with `image/` yields the
inline image preview carrying the record's `content`, and any other
string `mimeType` yields the file-download response built from
`fileName`, `mimeType` and the base64-decoded payload of `content`.
Every value not so classified is never rendered as a file; it is
rendered as content (raw HTML or the escaped `<pre>` page) whenever
`decodeURIComponent(key)` succeeds, while a non-markup value under an
undecodable key makes the request fail with a 500 (the `<pre>` page's
title decodes the key). -/
theorem C1_fileRecord_classification (store : Store) (k data : String)
    (h : store k = some data) (hne : data ≠ "") :
    (isFileRecordValue data = true ↔
      ∃ p, parseJson data = some p ∧ fileNameTruthy p = true) ∧
    (isFileRecordValue data = false → isFileResponse (servePage store k) = false) ∧
    (isFileRecordValue data = false → (decodeURIComponentM k).isSome = true →
      isContentView (servePage store k) = true) ∧
    (parseJson data = none → looksLikeMarkup data = false →
      decodeURIComponentM k = none → servePage store k = PageView.serverError) ∧
    (∀ p mt, parseJson data = some p → fileNameTruthy p = true →
      p.getField "mimeType" = some (Json.str mt) → startsWithL "image/".data mt.data = true →
      servePage store k = PageView.imagePreview (p.getField "content")) ∧
    (∀ p mt ct bytes, parseJson data = some p → fileNameTruthy p = true →
      p.getField "mimeType" = some (Json.str mt) → startsWithL "image/".data mt.data = false →
      p.getField "content" = some (Json.str ct) → decodeDataUri ct = some bytes →
      servePage store k =
        PageView.fileDownload ((p.getField "fileName").getD Json.null) mt bytes) := by
  refine ⟨?_, ?_, ?_, ?_, ?_, ?_⟩
  · unfold isFileRecordValue
    constructor
    · intro hc
      cases hp : parseJson data with
      | none => rw [hp] at hc; cases hc
      | some p =>
        rw [hp] at hc
        have hc' : (p.truthy && fileNameTruthy p) = true := hc
        exact ⟨p, rfl, Bool.and_elim_right hc'⟩
    · rintro ⟨p, hp, hfn⟩
      rw [hp]
      show (p.truthy && fileNameTruthy p) = true
      simp [truthy_of_fileNameTruthy hfn, hfn]
  · intro hc
    unfold isFileRecordValue at hc
    cases hp : parseJson data with
    | none =>
      rw [servePage_parse_fail h hne hp]
      cases hm : looksLikeMarkup data
      · cases hd : decodeURIComponentM k <;> simp [hm, hd, isFileResponse]
      · simp [hm, isFileResponse]
    | some p =>
      rw [hp] at hc
      have hc' : (p.truthy && fileNameTruthy p) = false := hc
      rw [servePage_parse_some h hp, if_neg]
      · rfl
      · simp [hc']
  · intro hc hk
    obtain ⟨u, hu⟩ := Option.isSome_iff_exists.mp hk
    unfold isFileRecordValue at hc
    cases hp : parseJson data with
    | none =>
      rw [servePage_parse_fail h hne hp]
      cases hm : looksLikeMarkup data <;> simp [hm, hu, isContentView]
    | some p =>
      rw [hp] at hc
      have hc' : (p.truthy && fileNameTruthy p) = false := hc
      rw [servePage_parse_some h hp, if_neg]
      · rfl
      · simp [hc']
  · intro hp hm hd
    rw [servePage_parse_fail h hne hp]
    simp [hm, hd]
  · intro p mt hp hfn hmt hsw
    rw [servePage_parse_some h hp, if_pos (by simp [truthy_of_fileNameTruthy hfn, hfn])]
    simp [serveFileRecord, hmt, hsw]
  · intro p mt ct bytes hp hfn hmt hsw hct hdec
    rw [servePage_parse_some h hp, if_pos (by simp [truthy_of_fileNameTruthy hfn, hfn])]
    simp [serveFileRecord, hmt, hsw, hct, hdec]

theorem C1_witness :
    kvPut (fun _ => none) "pic"
      "\x7b\"fileName\":\"a.png\",\"mimeType\":\"image/png\",\"content\":\"data:image/png;base64,SGkh\"\x7d"
      "pic" =
      some "\x7b\"fileName\":\"a.png\",\"mimeType\":\"image/png\",\"content\":\"data:image/png;base64,SGkh\"\x7d" ∧
    ("\x7b\"fileName\":\"a.png\",\"mimeType\":\"image/png\",\"content\":\"data:image/png;base64,SGkh\"\x7d" : String) ≠ "" ∧
    servePage
      (kvPut (fun _ => none) "pic"
        "\x7b\"fileName\":\"a.png\",\"mimeType\":\"image/png\",\"content\":\"data:image/png;base64,SGkh\"\x7d")
      "pic" =
      PageView.imagePreview (some (Json.str "data:image/png;base64,SGkh")) :=
  ⟨rfl, by decide,
    (C1_fileRecord_classification
      (kvPut (fun _ => none) "pic"
        "\x7b\"fileName\":\"a.png\",\"mimeType\":\"image/png\",\"content\":\"data:image/png;base64,SGkh\"\x7d")
      "pic"
      "\x7b\"fileName\":\"a.png\",\"mimeType\":\"image/png\",\"content\":\"data:image/png;base64,SGkh\"\x7d"
      rfl (by decide)).2.2.2.2.1
      (Json.obj [("fileName", Json.str "a.png"), ("mimeType", Json.str "image/png"),
        ("content", Json.str "data:image/png;base64,SGkh")])
      "image/png" rfl rfl rfl rfl⟩

/-! ### C3: JSON values without `fileName` (corrected) -/

/-- **C3, counterexample.**  The stored value `"123"` parses as JSON and
has no `fileName`, and it matches no markup substring — so the claimed
"same treatment as a plain value" would produce the escaped
`<pre>`-wrapped page — yet `servePage` returns the raw value as an HTML
response, applying neither the heuristic nor the escaping. -/
theorem C3_counterexample :
    parseJson "123" = some (Json.num false ['1', '2', '3'] [] false []) ∧
    fileNameTruthy (Json.num false ['1', '2', '3'] [] false []) = false ∧
    looksLikeMarkup "123" = false ∧
    servePage (kvPut (fun _ => none) "n" "123") "n" = PageView.rawHtml "123" ∧
    servePage (kvPut (fun _ => none) "n" "123") "n" ≠
      PageView.escapedPre "n" (escapeHtml "123") := by
  refine ⟨rfl, rfl, rfl, rfl, ?_⟩
  intro hx
  have h1 : servePage (kvPut (fun _ => none) "n" "123") "n" = PageView.rawHtml "123" := rfl
  rw [h1] at hx
  exact PageView.noConfusion hx

/-- **C3, amended.**  For every stored value that parses as JSON but
whose `parsedData && parsedData.fileName` test is falsy, `servePage`
returns the raw stored string as-is in an HTML response — it does
not apply the markup heuristic and does not escape, unlike the
treatment of a plain (non-JSON) value. -/
theorem C3_json_nonfile_served_raw (store : Store) (k data : String) (p : Json)
    (h : store k = some data) (hp : parseJson data = some p)
    (hfn : (p.truthy && fileNameTruthy p) = false) :
    servePage store k = PageView.rawHtml data := by
  rw [servePage_parse_some h hp, if_neg]
  simp [hfn]

theorem C3_witness :
    kvPut (fun _ => none) "n2" "123" "n2" = some "123" ∧
    parseJson "123" = some (Json.num false ['1', '2', '3'] [] false []) ∧
    ((Json.num false ['1', '2', '3'] [] false []).truthy &&
      fileNameTruthy (Json.num false ['1', '2', '3'] [] false [])) = false ∧
    servePage (kvPut (fun _ => none) "n2" "123") "n2" = PageView.rawHtml "123" :=
  ⟨rfl, rfl, rfl,
    C3_json_nonfile_served_raw (kvPut (fun _ => none) "n2" "123") "n2" "123"
      (Json.num false ['1', '2', '3'] [] false []) rfl rfl rfl⟩

/-! ### C4: escaped text round-trip (corrected) -/

/-- **C4, counterexample.**  Saving `"hello\n<b>world</b>"` under
`notes` stores it verbatim, and `servePage` returns the escaped
`<pre>`-wrapped page — but the escaped body keeps the literal newline:
it is `"hello\n&lt;b&gt;world&lt;/b&gt;"`, not the claimed
`"hello&#10;&lt;b&gt;world&lt;/b&gt;"` (the `&#10;` entity is produced
only by the edit form, not by `servePage`). -/
theorem C4_counterexample :
    savePage (fun _ => none) "notes" (some "hello\n<b>world</b>") none =
      SaveResult.saved (kvPut (fun _ => none) "notes" "hello\n<b>world</b>") ∧
    servePage (kvPut (fun _ => none) "notes" "hello\n<b>world</b>") "notes" =
      PageView.escapedPre "notes" "hello\n&lt;b&gt;world&lt;/b&gt;" ∧
    ("hello\n&lt;b&gt;world&lt;/b&gt;" : String) ≠ "hello&#10;&lt;b&gt;world&lt;/b&gt;" ∧
    servePage (kvPut (fun _ => none) "notes" "hello\n<b>world</b>") "notes" ≠
      PageView.escapedPre "notes" "hello&#10;&lt;b&gt;world&lt;/b&gt;" := by
  refine ⟨rfl, rfl, by decide, ?_⟩
  intro hx
  have h1 : servePage (kvPut (fun _ => none) "notes" "hello\n<b>world</b>") "notes" =
      PageView.escapedPre "notes" "hello\n&lt;b&gt;world&lt;/b&gt;" := rfl
  rw [h1] at hx
  have h2 : ("hello\n&lt;b&gt;world&lt;/b&gt;" : String) =
      "hello&#10;&lt;b&gt;world&lt;/b&gt;" := by
    injection hx
  exact absurd h2 (by decide)

/-- **C4, amended.**  Saving key `notes` with text
`"hello\n<b>world</b>"` stores it verbatim, and a subsequent get
returns the escaped text `"hello\n&lt;b&gt;world&lt;/b&gt;"` — the
`&`, `<`, `>` characters escaped and the newline preserved literally —
inside the preformatted block, not executed as markup, because the
content matches none of the markup-heuristic substrings.  In general,
for any non-JSON, non-markup content under a key on which
`decodeURIComponent` succeeds (such as `notes`), a save followed by a
get renders the verbatim-stored value HTML-escaped and
whitespace-preserved; for an undecodable key the get 500s instead (see
the C1/C2 counterexamples). -/
theorem C4_text_roundtrip_escaped (store : Store) (k v : String)
    (hp : parseJson v = none) (hm : looksLikeMarkup v = false) (hv : v ≠ "")
    (hk : (decodeURIComponentM k).isSome = true) :
    savePage store k (some v) none = SaveResult.saved (kvPut store k v) ∧
    kvPut store k v k = some v ∧
    servePage (kvPut store k v) k = PageView.escapedPre k (escapeHtml v) ∧
    escapeHtml v = String.mk (v.data.flatMap escapeCharSpec) := by
  refine ⟨rfl, kvPut_self store k v, ?_, escapeHtml_eq_flatMap v⟩
  obtain ⟨u, hu⟩ := Option.isSome_iff_exists.mp hk
  rw [servePage_parse_fail (kvPut_self store k v) hv hp]
  simp [hm, hu]

theorem C4_witness :
    parseJson "hello\n<b>world</b>" = none ∧
    looksLikeMarkup "hello\n<b>world</b>" = false ∧
    ("hello\n<b>world</b>" : String) ≠ "" ∧
    (decodeURIComponentM "notes").isSome = true ∧
    (savePage (fun _ => none) "notes" (some "hello\n<b>world</b>") none =
      SaveResult.saved (kvPut (fun _ => none) "notes" "hello\n<b>world</b>") ∧
     kvPut (fun _ => none) "notes" "hello\n<b>world</b>" "notes" = some "hello\n<b>world</b>" ∧
     servePage (kvPut (fun _ => none) "notes" "hello\n<b>world</b>") "notes" =
       PageView.escapedPre "notes" (escapeHtml "hello\n<b>world</b>") ∧
     escapeHtml "hello\n<b>world</b>" =
       String.mk ("hello\n<b>world</b>".data.flatMap escapeCharSpec)) :=
  ⟨rfl, rfl, by decide, rfl,
    C4_text_roundtrip_escaped (fun _ => none) "notes" "hello\n<b>world</b>" rfl rfl
      (by decide) rfl⟩

/-! ### C8: listing -/

/-- **C8.** With zero keys the listing is the dedicated "no pages"
view.  With keys `["b", "a"]` (and any comparator that, like every
locale's `localeCompare`, orders `"a"` strictly before `"b"`) the keys
are displayed in the order `["a", "b"]`.  In general, for a consistent
comparator the displayed sequence is a permutation of the stored keys
that is pairwise sorted by the comparator applied to the URI-decoded
key strings. -/
theorem C8_listing_sorted (cmp : String → String → Int)
    (htot : ∀ a b, cmp a b ≤ 0 ∨ cmp b a ≤ 0)
    (htrans : ∀ a b c, cmp a b ≤ 0 → cmp b c ≤ 0 → cmp a c ≤ 0) :
    listPages cmp [] = some ListView.empty ∧
    (cmp "a" "b" ≤ 0 → ¬cmp "b" "a" ≤ 0 →
      listPages cmp ["b", "a"] = some (ListView.pages ["a", "b"])) ∧
    (∀ keys l, listPages cmp keys = some (ListView.pages l) →
      l.Perm keys ∧
      l.Pairwise (fun a b => cmp (decodedKey a) (decodedKey b) ≤ 0)) := by
  refine ⟨rfl, ?_, ?_⟩
  · intro _ hba
    have e1 : decodedKey "b" = "b" := rfl
    have e2 : decodedKey "a" = "a" := rfl
    have h0 : listPages cmp ["b", "a"] =
        some (ListView.pages
          (List.insertionSort
            (fun a b => cmp (decodedKey a) (decodedKey b) ≤ 0) ["b", "a"])) := rfl
    rw [h0]
    simp only [List.insertionSort, List.orderedInsert, e1, e2]
    rw [if_neg hba]
  · intro keys l hl
    by_cases he : keys.isEmpty
    · rw [listPages, if_pos he] at hl
      cases hl
    · by_cases hd : keys.all fun k => (decodeURIComponentM k).isSome
      · rw [listPages, if_neg he, if_pos hd] at hl
        have hl' : List.insertionSort
            (fun a b => cmp (decodedKey a) (decodedKey b) ≤ 0) keys = l := by
          cases hl
          rfl
        subst hl'
        letI : IsTotal String (fun a b => cmp (decodedKey a) (decodedKey b) ≤ 0) :=
          ⟨fun a b => htot _ _⟩
        letI : IsTrans String (fun a b => cmp (decodedKey a) (decodedKey b) ≤ 0) :=
          ⟨fun _ _ _ hab hbc => htrans _ _ _ hab hbc⟩
        exact ⟨List.perm_insertionSort _ _, List.sorted_insertionSort _ _⟩
      · rw [listPages, if_neg he, if_neg hd] at hl
        cases hl

theorem C8_witness :
    (∀ a b, strCmp a b ≤ 0 ∨ strCmp b a ≤ 0) ∧
    (∀ a b c, strCmp a b ≤ 0 → strCmp b c ≤ 0 → strCmp a c ≤ 0) ∧
    (listPages strCmp [] = some ListView.empty ∧
     (strCmp "a" "b" ≤ 0 → ¬strCmp "b" "a" ≤ 0 →
       listPages strCmp ["b", "a"] = some (ListView.pages ["a", "b"])) ∧
     (∀ keys l, listPages strCmp keys = some (ListView.pages l) →
       l.Perm keys ∧
       l.Pairwise (fun a b => strCmp (decodedKey a) (decodedKey b) ≤ 0))) ∧
    listPages strCmp ["b", "a"] = some (ListView.pages ["a", "b"]) := by
  have ltot : ∀ as bs, listCmp as bs ≤ 0 ∨ listCmp bs as ≤ 0 := by
    intro as
    induction as with
    | nil => intro bs; cases bs <;> simp [listCmp]
    | cons a as ih =>
      intro bs
      cases bs with
      | nil => right; simp [listCmp]
      | cons b bs =>
        by_cases h1 : a < b
        · left; simp [listCmp, h1]
        by_cases h2 : b < a
        · right; simp [listCmp, h2]
        · rcases ih bs with h | h
          · left; simpa [listCmp, h1, h2] using h
          · right; simpa [listCmp, h1, h2] using h
  have ltrans : ∀ as bs cs, listCmp as bs ≤ 0 → listCmp bs cs ≤ 0 → listCmp as cs ≤ 0 := by
    intro as
    induction as with
    | nil => intro bs cs _ _; cases cs <;> simp [listCmp]
    | cons a as ih =>
      intro bs cs hab hbc
      cases bs with
      | nil => simp [listCmp] at hab
      | cons b bs =>
        cases cs with
        | nil => simp [listCmp] at hbc
        | cons c cs =>
          by_cases h1 : a < b
          · have hcb : ¬c < b := by
              intro h
              rw [listCmp, if_neg (asymm h), if_pos h] at hbc
              norm_num at hbc
            have hac : a < c := lt_of_lt_of_le h1 (not_lt.mp hcb)
            simp [listCmp, hac]
          · have hba : ¬b < a := by
              intro h
              rw [listCmp, if_neg (asymm h), if_pos h] at hab
              norm_num at hab
            have heq : a = b := le_antisymm (not_lt.mp hba) (not_lt.mp h1)
            subst heq
            by_cases h2 : a < c
            · simp [listCmp, h2]
            · have hca : ¬c < a := by
                intro h
                rw [listCmp, if_neg (asymm h), if_pos h] at hbc
                norm_num at hbc
              rw [listCmp, if_neg h2, if_neg hca]
              rw [listCmp, if_neg h1, if_neg hba] at hab
              rw [listCmp, if_neg h2, if_neg hca] at hbc
              exact ih bs cs hab hbc
  have htot : ∀ a b, strCmp a b ≤ 0 ∨ strCmp b a ≤ 0 := fun a b => ltot a.data b.data
  have htrans : ∀ a b c, strCmp a b ≤ 0 → strCmp b c ≤ 0 → strCmp a c ≤ 0 :=
    fun a b c hab hbc => ltrans a.data b.data c.data hab hbc
  refine ⟨htot, htrans, C8_listing_sorted strCmp htot htrans, ?_⟩
  exact (C8_listing_sorted strCmp htot htrans).2.1 (by decide) (by decide)

/-! ### C5: base64 round-trip -/

theorem b64Dec_enc : ∀ n, n < 64 → b64Dec (b64Enc n) = some n := by decide

theorem b64Enc_OK_lt : ∀ n, n < 64 → B64CharOK (b64Enc n) := by decide

theorem b64Enc_OK : ∀ n, B64CharOK (b64Enc n) := by
  intro n
  rcases Nat.lt_or_ge n 64 with h | h
  · exact b64Enc_OK_lt n h
  · have he : b64Enc n = 'A' := by
      unfold b64Enc
      exact List.getD_eq_default _ _ (by simpa [b64Chars] using h)
    rw [he]
    decide

theorem eq_OK : B64CharOK '=' := by decide

theorem encChunks_OK : ∀ bs, ∀ c ∈ encChunks bs, B64CharOK c := by
  intro bs
  induction bs using encChunks.induct with
  | case1 => intro c hc; cases hc
  | case2 a =>
    intro c hc
    simp only [encChunks, List.mem_cons, List.not_mem_nil, or_false] at hc
    rcases hc with h | h | h | h <;> subst h <;> first | exact b64Enc_OK _ | exact eq_OK
  | case3 a b =>
    intro c hc
    simp only [encChunks, List.mem_cons, List.not_mem_nil, or_false] at hc
    rcases hc with h | h | h | h <;> subst h <;> first | exact b64Enc_OK _ | exact eq_OK
  | case4 a b c3 rest ih =>
    intro c hc
    simp only [encChunks, List.mem_cons] at hc
    rcases hc with h | h | h | h | h
    · subst h; exact b64Enc_OK _
    · subst h; exact b64Enc_OK _
    · subst h; exact b64Enc_OK _
    · subst h; exact b64Enc_OK _
    · exact ih c h

theorem encChunks_len : ∀ bs, (encChunks bs).length % 4 = 0 := by
  intro bs
  induction bs using encChunks.induct with
  | case1 => rfl
  | case2 a => simp [encChunks]
  | case3 a b => simp [encChunks]
  | case4 a b c rest ih =>
    simp only [encChunks, List.length_cons]
    omega

theorem encChunks_ne_nil : ∀ bs, bs ≠ [] → encChunks bs ≠ [] := by
  intro bs h
  match bs with
  | [] => exact absurd rfl h
  | [a] => simp [encChunks]
  | [a, b] => simp [encChunks]
  | a :: b :: c :: rest => simp [encChunks]

theorem b64Enc_ne_eq_lt : ∀ n, n < 64 → b64Enc n ≠ '=' := by decide

theorem b64Enc_ne_eq (n : Nat) : b64Enc n ≠ '=' := by
  rcases Nat.lt_or_ge n 64 with h | h
  · exact b64Enc_ne_eq_lt n h
  · unfold b64Enc
    rw [List.getD_eq_default _ _ (by simpa [b64Chars] using h)]
    decide

theorem stripOneEq_append (l t : List Char) (h : t ≠ []) :
    stripOneEq (l ++ t) = l ++ stripOneEq t := by
  unfold stripOneEq
  rw [List.getLast?_append_of_ne_nil l h]
  by_cases hl : t.getLast? = some '='
  · rw [if_pos hl, if_pos hl, List.dropLast_append_of_ne_nil l h]
  · rw [if_neg hl, if_neg hl]

theorem stripOneEq_length (l : List Char) :
    (stripOneEq l).length = l.length ∨ (stripOneEq l).length + 1 = l.length := by
  unfold stripOneEq
  by_cases hl : l.getLast? = some '='
  · right
    rw [if_pos hl, List.length_dropLast]
    have : l ≠ [] := by
      intro e
      subst e
      simp at hl
    have : 0 < l.length := List.length_pos.mpr this
    omega
  · left
    rw [if_neg hl]

theorem stripTwo_append (l t : List Char) (h : 2 ≤ t.length) :
    stripOneEq (stripOneEq (l ++ t)) = l ++ stripOneEq (stripOneEq t) := by
  have h1 : t ≠ [] := by
    intro e
    subst e
    simp at h
  rw [stripOneEq_append l t h1, stripOneEq_append l _ ?_]
  intro e
  have := stripOneEq_length t
  rw [e] at this
  simp at this
  omega

theorem stripOneEq_concat_eq (l : List Char) : stripOneEq (l ++ ['=']) = l := by
  unfold stripOneEq
  rw [List.getLast?_concat, if_pos rfl, List.dropLast_concat]

theorem stripOneEq_of_last_ne (l : List Char) (c : Char) (h : c ≠ '=') :
    stripOneEq (l ++ [c]) = l ++ [c] := by
  unfold stripOneEq
  rw [List.getLast?_concat, if_neg (by simpa using h)]

theorem decode_strip_enc : ∀ bs : List Nat, (∀ b ∈ bs, b < 256) →
    decodeChunks (stripOneEq (stripOneEq (encChunks bs))) = some bs := by
  intro bs
  induction bs using encChunks.induct with
  | case1 => intro _; rfl
  | case2 a =>
    intro hb
    have ha : a < 256 := hb a (by simp)
    rw [show encChunks [a] = ([b64Enc (a / 4), b64Enc (a % 4 * 16), '='] ++ ['=']) from rfl,
      stripOneEq_concat_eq,
      show [b64Enc (a / 4), b64Enc (a % 4 * 16), '='] =
        ([b64Enc (a / 4), b64Enc (a % 4 * 16)] ++ ['=']) from rfl,
      stripOneEq_concat_eq]
    simp only [decodeChunks]
    rw [b64Dec_enc _ (by omega), b64Dec_enc _ (by omega)]
    show some [a / 4 * 4 + a % 4 * 16 / 16] = some [a]
    simp only [Option.some.injEq, List.cons.injEq, and_true]
    omega
  | case3 a b =>
    intro hb
    have ha : a < 256 := hb a (by simp)
    have hbb : b < 256 := hb b (by simp)
    rw [show encChunks [a, b] =
        ([b64Enc (a / 4), b64Enc (a % 4 * 16 + b / 16), b64Enc (b % 16 * 4)] ++ ['=']) from rfl,
      stripOneEq_concat_eq,
      show [b64Enc (a / 4), b64Enc (a % 4 * 16 + b / 16), b64Enc (b % 16 * 4)] =
        ([b64Enc (a / 4), b64Enc (a % 4 * 16 + b / 16)] ++ [b64Enc (b % 16 * 4)]) from rfl,
      stripOneEq_of_last_ne _ _ (b64Enc_ne_eq _),
      show [b64Enc (a / 4), b64Enc (a % 4 * 16 + b / 16)] ++ [b64Enc (b % 16 * 4)] =
        [b64Enc (a / 4), b64Enc (a % 4 * 16 + b / 16), b64Enc (b % 16 * 4)] from rfl]
    simp only [decodeChunks]
    rw [b64Dec_enc _ (by omega), b64Dec_enc _ (by omega), b64Dec_enc _ (by omega)]
    show some [a / 4 * 4 + (a % 4 * 16 + b / 16) / 16,
      (a % 4 * 16 + b / 16) % 16 * 16 + b % 16 * 4 / 4] = some [a, b]
    simp only [Option.some.injEq, List.cons.injEq, and_true]
    omega
  | case4 a b c rest ih =>
    intro hb
    have ha : a < 256 := hb a (by simp)
    have hbb : b < 256 := hb b (by simp)
    have hc : c < 256 := hb c (by simp)
    have hrest : ∀ x ∈ rest, x < 256 := fun x hx => hb x (by simp [hx])
    by_cases hr : rest = []
    · subst hr
      rw [show encChunks [a, b, c] =
          ([b64Enc (a / 4), b64Enc (a % 4 * 16 + b / 16), b64Enc (b % 16 * 4 + c / 64)] ++
            [b64Enc (c % 64)]) from rfl,
        stripOneEq_of_last_ne _ _ (b64Enc_ne_eq _),
        stripOneEq_of_last_ne _ _ (b64Enc_ne_eq _),
        show [b64Enc (a / 4), b64Enc (a % 4 * 16 + b / 16), b64Enc (b % 16 * 4 + c / 64)] ++
            [b64Enc (c % 64)] =
          [b64Enc (a / 4), b64Enc (a % 4 * 16 + b / 16), b64Enc (b % 16 * 4 + c / 64),
            b64Enc (c % 64)] from rfl]
      simp only [decodeChunks]
      rw [b64Dec_enc _ (by omega), b64Dec_enc _ (by omega), b64Dec_enc _ (by omega),
        b64Dec_enc _ (by omega)]
      show some [a / 4 * 4 + (a % 4 * 16 + b / 16) / 16,
        (a % 4 * 16 + b / 16) % 16 * 16 + (b % 16 * 4 + c / 64) / 4,
        (b % 16 * 4 + c / 64) % 4 * 64 + c % 64] = some [a, b, c]
      simp only [Option.some.injEq, List.cons.injEq, and_true]
      omega
    · have hlen0 : encChunks rest ≠ [] := encChunks_ne_nil rest hr
      have hlen4 : (encChunks rest).length % 4 = 0 := encChunks_len rest
      have hlen2 : 2 ≤ (encChunks rest).length := by
        have : (encChunks rest).length ≠ 0 := fun e => hlen0 (List.length_eq_zero.mp e)
        omega
      rw [show encChunks (a :: b :: c :: rest) =
          [b64Enc (a / 4), b64Enc (a % 4 * 16 + b / 16), b64Enc (b % 16 * 4 + c / 64),
            b64Enc (c % 64)] ++ encChunks rest from rfl,
        stripTwo_append _ _ hlen2]
      rw [show [b64Enc (a / 4), b64Enc (a % 4 * 16 + b / 16), b64Enc (b % 16 * 4 + c / 64),
            b64Enc (c % 64)] ++ stripOneEq (stripOneEq (encChunks rest)) =
          b64Enc (a / 4) :: b64Enc (a % 4 * 16 + b / 16) :: b64Enc (b % 16 * 4 + c / 64) ::
            b64Enc (c % 64) :: stripOneEq (stripOneEq (encChunks rest)) from rfl]
      simp only [decodeChunks]
      rw [b64Dec_enc _ (by omega), b64Dec_enc _ (by omega), b64Dec_enc _ (by omega),
        b64Dec_enc _ (by omega), ih hrest]
      show some ((a / 4 * 4 + (a % 4 * 16 + b / 16) / 16) ::
        ((a % 4 * 16 + b / 16) % 16 * 16 + (b % 16 * 4 + c / 64) / 4) ::
        ((b % 16 * 4 + c / 64) % 4 * 64 + c % 64) :: rest) = some (a :: b :: c :: rest)
      simp only [Option.some.injEq, List.cons.injEq, and_true]
      omega

theorem atob_roundtrip (bs : List Nat) (h : ∀ b ∈ bs, b < 256) :
    atob (arrayBufferToBase64 bs) = some bs := by
  have hdata : (arrayBufferToBase64 bs).data = encChunks bs := rfl
  have hfilter : (encChunks bs).filter (fun c => !isB64Ws c) = encChunks bs :=
    List.filter_eq_self.mpr fun c hc => (encChunks_OK bs c hc).1
  have hgate : (stripOneEq (stripOneEq (encChunks bs))).length % 4 ≠ 1 := by
    have h1 := stripOneEq_length (encChunks bs)
    have h2 := stripOneEq_length (stripOneEq (encChunks bs))
    have h3 := encChunks_len bs
    omega
  unfold atob
  rw [hdata, hfilter, if_pos (encChunks_len bs)]
  unfold atobCore
  rw [if_neg hgate]
  exact decode_strip_enc bs h

/-! ### C5: extracting the payload from the data URI -/

theorem startsWithL_self_append (p t : List Char) : startsWithL p (p ++ t) = true := by
  induction p with
  | nil => rfl
  | cons c p ih => simp [startsWithL, ih]

theorem startsWith_bsep_comma (xs : List Char) (h : startsWithL bsep xs = true) :
    ',' ∈ xs := by
  have hb : bsep = ['b', 'a', 's', 'e', '6', '4', ','] := rfl
  rw [hb] at h
  rcases xs with _ | ⟨c1, _ | ⟨c2, _ | ⟨c3, _ | ⟨c4, _ | ⟨c5, _ | ⟨c6, _ | ⟨c7, rest⟩⟩⟩⟩⟩⟩⟩ <;>
    simp [startsWithL] at h
  obtain ⟨-, -, -, -, -, -, h7⟩ := h
  subst h7
  simp

theorem splitFirst_no_comma : ∀ cs : List Char, ',' ∉ cs → splitFirst cs = none := by
  intro cs
  induction cs with
  | nil => intro _; rfl
  | cons c rest ih =>
    intro h
    have hs : ¬startsWithL bsep (c :: rest) = true := fun hs =>
      h (startsWith_bsep_comma _ hs)
    simp only [splitFirst, if_neg hs]
    rw [ih fun hm => h (List.mem_cons_of_mem c hm)]
    rfl

theorem splitFirst_png (t : List Char) :
    splitFirst ("data:image/png;base64,".data ++ t) =
      some ("data:image/png;".data, t) := by
  have hd : "data:image/png;base64,".data =
    ['d', 'a', 't', 'a', ':', 'i', 'm', 'a', 'g', 'e', '/', 'p', 'n', 'g', ';',
     'b', 'a', 's', 'e', '6', '4', ','] := rfl
  have hp : "data:image/png;".data =
    ['d', 'a', 't', 'a', ':', 'i', 'm', 'a', 'g', 'e', '/', 'p', 'n', 'g', ';'] := rfl
  have hb : bsep = ['b', 'a', 's', 'e', '6', '4', ','] := rfl
  rw [hd, hp]
  simp [splitFirst, startsWithL, hb, List.drop]

theorem splitFirst_pdf (t : List Char) :
    splitFirst ("data:application/pdf;base64,".data ++ t) =
      some ("data:application/pdf;".data, t) := by
  have hd : "data:application/pdf;base64,".data =
    ['d', 'a', 't', 'a', ':', 'a', 'p', 'p', 'l', 'i', 'c', 'a', 't', 'i', 'o', 'n',
     '/', 'p', 'd', 'f', ';', 'b', 'a', 's', 'e', '6', '4', ','] := rfl
  have hp : "data:application/pdf;".data =
    ['d', 'a', 't', 'a', ':', 'a', 'p', 'p', 'l', 'i', 'c', 'a', 't', 'i', 'o', 'n',
     '/', 'p', 'd', 'f', ';'] := rfl
  have hb : bsep = ['b', 'a', 's', 'e', '6', '4', ','] := rfl
  rw [hd, hp]
  simp [splitFirst, startsWithL, hb, List.drop]

theorem comma_not_mem_enc (bs : List Nat) : ',' ∉ encChunks bs :=
  fun hm => (encChunks_OK bs ',' hm).2.1 rfl

theorem decodeDataUri_png (bs : List Nat) (h : ∀ b ∈ bs, b < 256) :
    decodeDataUri (dataUriOf "image/png" (arrayBufferToBase64 bs)) = some bs := by
  have hdata : (dataUriOf "image/png" (arrayBufferToBase64 bs)).data =
      "data:image/png;base64,".data ++ encChunks bs := by
    show ("data:" ++ "image/png" ++ ";base64," ++ arrayBufferToBase64 bs).data = _
    rw [String.data_append, String.data_append, String.data_append]
    rfl
  unfold decodeDataUri splitIndex1
  rw [hdata, splitFirst_png, Option.map_some', splitFirst_no_comma _ (comma_not_mem_enc bs)]
  show atob (String.mk (encChunks bs)) = some bs
  exact atob_roundtrip bs h

theorem decodeDataUri_pdf (bs : List Nat) (h : ∀ b ∈ bs, b < 256) :
    decodeDataUri (dataUriOf "application/pdf" (arrayBufferToBase64 bs)) = some bs := by
  have hdata : (dataUriOf "application/pdf" (arrayBufferToBase64 bs)).data =
      "data:application/pdf;base64,".data ++ encChunks bs := by
    show ("data:" ++ "application/pdf" ++ ";base64," ++ arrayBufferToBase64 bs).data = _
    rw [String.data_append, String.data_append, String.data_append]
    rfl
  unfold decodeDataUri splitIndex1
  rw [hdata, splitFirst_pdf, Option.map_some', splitFirst_no_comma _ (comma_not_mem_enc bs)]
  show atob (String.mk (encChunks bs)) = some bs
  exact atob_roundtrip bs h

/-! ### C5: `JSON.parse` recovers `JSON.stringify` of a plain file record -/

theorem optionBindSome {α β : Type} (a : α) (f : α → Option β) :
    (some a).bind f = f a := rfl

theorem jsonEscapeChar_plain {c : Char} (h : PlainChar c) : jsonEscapeChar c = [c] := by
  obtain ⟨h1, h2, h3⟩ := h
  unfold jsonEscapeChar
  rw [if_neg h2, if_neg h3,
    if_neg (fun e => absurd h1 (by subst e; decide)),
    if_neg (fun e => absurd h1 (by subst e; decide)),
    if_neg (fun e => absurd h1 (by subst e; decide)),
    if_neg (fun e => absurd h1 (by subst e; decide)),
    if_neg (fun e => absurd h1 (by subst e; decide)),
    if_neg (by omega)]

theorem jsonEscape_plain (s : List Char) (h : ∀ c ∈ s, PlainChar c) :
    jsonEscape s = s := by
  induction s with
  | nil => rfl
  | cons c rest ih =>
    show jsonEscapeChar c ++ jsonEscape rest = c :: rest
    rw [jsonEscapeChar_plain (h c (by simp)), ih fun x hx => h x (by simp [hx])]
    rfl

theorem parseStringBody_plain : ∀ (s r : List Char), (∀ c ∈ s, PlainChar c) →
    parseStringBody (s ++ '"' :: r) = some (s, r) := by
  intro s
  induction s with
  | nil =>
    intro r _
    rw [List.nil_append]
    simp [parseStringBody]
  | cons c s ih =>
    intro r h
    obtain ⟨h1, h2, h3⟩ := h c (by simp)
    rw [List.cons_append]
    simp only [parseStringBody, if_neg h2, if_neg h3, if_pos h1]
    rw [ih r fun x hx => h x (by simp [hx])]
    rfl

theorem skipWs_quote (l : List Char) : skipWs ('"' :: l) = '"' :: l := by
  simp [skipWs]

theorem skipWs_colon (l : List Char) : skipWs (':' :: l) = ':' :: l := by
  simp [skipWs]

theorem skipWs_comma (l : List Char) : skipWs (',' :: l) = ',' :: l := by
  simp [skipWs]

theorem skipWs_lbrace (l : List Char) : skipWs ('{' :: l) = '{' :: l := by
  simp [skipWs]

theorem skipWs_rbrace (l : List Char) : skipWs ('}' :: l) = '}' :: l := by
  simp [skipWs]

theorem parseMembers_cons_mid (g : Nat) (key val rest : List Char)
    (hkey : ∀ c ∈ key, PlainChar c) (hval : ∀ c ∈ val, PlainChar c) :
    parseMembers (g + 1 + 1)
        ('"' :: (key ++ '"' :: ':' :: '"' :: (val ++ '"' :: ',' :: rest))) =
      (parseMembers (g + 1) (skipWs rest)).map fun ms =>
        ((String.mk key, Json.str (String.mk val)) :: ms.1, ms.2) := by
  simp only [parseMembers, eq_self_iff_true, if_true]
  rw [parseStringBody_plain key (':' :: '"' :: (val ++ '"' :: ',' :: rest)) hkey]
  simp only [optionBindSome, skipWs_colon, eq_self_iff_true, if_true]
  rw [skipWs_quote]
  have hv : parseValue (g + 1) ('"' :: (val ++ '"' :: ',' :: rest)) =
      some (Json.str (String.mk val), ',' :: rest) := by
    simp only [parseValue, eq_self_iff_true, if_true,
      parseStringBody_plain val (',' :: rest) hval, Option.map_some']
  rw [hv]
  simp only [optionBindSome, skipWs_comma, eq_self_iff_true, if_true]

theorem parseMembers_cons_last (g : Nat) (key val rest : List Char)
    (hkey : ∀ c ∈ key, PlainChar c) (hval : ∀ c ∈ val, PlainChar c) :
    parseMembers (g + 1 + 1)
        ('"' :: (key ++ '"' :: ':' :: '"' :: (val ++ '"' :: '}' :: rest))) =
      some ([(String.mk key, Json.str (String.mk val))], rest) := by
  simp only [parseMembers, eq_self_iff_true, if_true]
  rw [parseStringBody_plain key (':' :: '"' :: (val ++ '"' :: '}' :: rest)) hkey]
  simp only [optionBindSome, skipWs_colon, eq_self_iff_true, if_true]
  rw [skipWs_quote]
  have hv : parseValue (g + 1) ('"' :: (val ++ '"' :: '}' :: rest)) =
      some (Json.str (String.mk val), '}' :: rest) := by
    simp only [parseValue, eq_self_iff_true, if_true,
      parseStringBody_plain val ('}' :: rest) hval, Option.map_some']
  rw [hv]
  simp only [optionBindSome, skipWs_rbrace, eq_self_iff_true, if_true,
    if_neg (show ¬('}' : Char) = ',' from by decide)]

theorem parseValue_record (g : Nat) (fn mt ct rest : List Char)
    (hfn : ∀ c ∈ fn, PlainChar c) (hmt : ∀ c ∈ mt, PlainChar c)
    (hct : ∀ c ∈ ct, PlainChar c) :
    parseValue (g + 1 + 1 + 1 + 1 + 1)
        ('{' :: '"' :: ("fileName".data ++ '"' :: ':' :: '"' :: (fn ++ '"' :: ',' ::
          '"' :: ("mimeType".data ++ '"' :: ':' :: '"' :: (mt ++ '"' :: ',' ::
          '"' :: ("content".data ++ '"' :: ':' :: '"' :: (ct ++ '"' :: '}' :: rest))))))) =
      some (Json.obj [(String.mk "fileName".data, Json.str (String.mk fn)),
        (String.mk "mimeType".data, Json.str (String.mk mt)),
        (String.mk "content".data, Json.str (String.mk ct))], rest) := by
  simp only [parseValue, eq_self_iff_true, if_true,
    if_neg (show ¬('{' : Char) = '"' from by decide), skipWs_quote,
    if_neg (show ¬('"' : Char) = '}' from by decide)]
  rw [parseMembers_cons_mid (g + 1 + 1) "fileName".data fn _ (by decide) hfn,
    skipWs_quote,
    parseMembers_cons_mid (g + 1) "mimeType".data mt _ (by decide) hmt,
    skipWs_quote,
    parseMembers_cons_last g "content".data ct rest (by decide) hct]
  rfl

theorem parseJson_stringifyFileRecord (fn mt ct : String)
    (hfn : PlainStr fn) (hmt : PlainStr mt) (hct : PlainStr ct) :
    parseJson (stringifyFileRecord fn mt ct) =
      some (Json.obj [("fileName", Json.str fn), ("mimeType", Json.str mt),
        ("content", Json.str ct)]) := by
  have hdata : (stringifyFileRecord fn mt ct).data =
      '{' :: '"' :: ("fileName".data ++ '"' :: ':' :: '"' :: (fn.data ++ '"' :: ',' ::
        '"' :: ("mimeType".data ++ '"' :: ':' :: '"' :: (mt.data ++ '"' :: ',' ::
        '"' :: ("content".data ++ '"' :: ':' :: '"' ::
          (ct.data ++ '"' :: '}' :: ([] : List Char))))))) := by
    show ('{' :: (jstr "fileName" ++ ':' :: (jstr fn ++ ',' :: (jstr "mimeType" ++
      ':' :: (jstr mt ++ ',' :: (jstr "content" ++ ':' :: (jstr ct ++ ['}'])))))) :
        List Char) = _
    simp only [jstr, jsonEscape_plain fn.data hfn, jsonEscape_plain mt.data hmt,
      jsonEscape_plain ct.data hct,
      show jsonEscape "fileName".data = "fileName".data from rfl,
      show jsonEscape "mimeType".data = "mimeType".data from rfl,
      show jsonEscape "content".data = "content".data from rfl]
    simp [List.append_assoc]
  have h4 : 4 ≤ (stringifyFileRecord fn mt ct).length := by
    rw [show (stringifyFileRecord fn mt ct).length =
      (stringifyFileRecord fn mt ct).data.length from rfl, hdata]
    simp [List.length_cons, List.length_append]
  have hfuel : (stringifyFileRecord fn mt ct).length + 1 =
      (stringifyFileRecord fn mt ct).length - 4 + 1 + 1 + 1 + 1 + 1 := by omega
  unfold parseJson
  rw [hdata, skipWs_lbrace, hfuel,
    parseValue_record ((stringifyFileRecord fn mt ct).length - 4)
      fn.data mt.data ct.data [] hfn hmt hct]
  rfl

theorem getField_fileName (A B C : Json) :
    (Json.obj [("fileName", A), ("mimeType", B), ("content", C)]).getField "fileName" =
      some A := by
  simp [Json.getField, lookupLast]

theorem getField_mimeType (A B C : Json) :
    (Json.obj [("fileName", A), ("mimeType", B), ("content", C)]).getField "mimeType" =
      some B := by
  simp [Json.getField, lookupLast]

theorem getField_content (A B C : Json) :
    (Json.obj [("fileName", A), ("mimeType", B), ("content", C)]).getField "content" =
      some C := by
  simp [Json.getField, lookupLast]

theorem stringifyFileRecord_ne_empty (a b c : String) : stringifyFileRecord a b c ≠ "" := by
  intro e
  have h := congrArg String.data e
  rw [show (stringifyFileRecord a b c).data =
    '{' :: (jstr "fileName" ++ ':' :: (jstr a ++ ',' :: (jstr "mimeType" ++ ':' ::
      (jstr b ++ ',' :: (jstr "content" ++ ':' :: (jstr c ++ ['}'])))))) from rfl] at h
  exact List.noConfusion h

theorem dataUri_plain_png (bytes : List Nat) :
    PlainStr (dataUriOf "image/png" (arrayBufferToBase64 bytes)) := by
  intro c hc
  rw [show (dataUriOf "image/png" (arrayBufferToBase64 bytes)).data =
      "data:image/png;base64,".data ++ encChunks bytes from by
    show ("data:" ++ "image/png" ++ ";base64," ++ arrayBufferToBase64 bytes).data = _
    rw [String.data_append, String.data_append, String.data_append]
    rfl] at hc
  rcases List.mem_append.mp hc with h | h
  · exact (by decide : ∀ x ∈ "data:image/png;base64,".data, PlainChar x) c h
  · exact (encChunks_OK bytes c h).2.2

theorem dataUri_plain_pdf (bytes : List Nat) :
    PlainStr (dataUriOf "application/pdf" (arrayBufferToBase64 bytes)) := by
  intro c hc
  rw [show (dataUriOf "application/pdf" (arrayBufferToBase64 bytes)).data =
      "data:application/pdf;base64,".data ++ encChunks bytes from by
    show ("data:" ++ "application/pdf" ++ ";base64," ++ arrayBufferToBase64 bytes).data = _
    rw [String.data_append, String.data_append, String.data_append]
    rfl] at hc
  rcases List.mem_append.mp hc with h | h
  · exact (by decide : ∀ x ∈ "data:application/pdf;base64,".data, PlainChar x) c h
  · exact (encChunks_OK bytes c h).2.2

/-- **C5.** For every uploaded file (name `fn`, non-empty byte content
`bytes`), `savePage` stores the JSON file record whose `content` field
is the data URI `data:<mime>;base64,<b64>` with `<b64>` the base64
encoding of the file's bytes, and `servePage` round-trips it: for MIME
type `image/png` the response is the inline-image preview whose
embedded data URI decodes back to the original bytes, and for MIME
type `application/pdf` the response is a download carrying the
original file name and a byte-identical payload. -/
theorem C5_upload_roundtrip (store : Store) (key : String) (content : Option String)
    (fn : String) (bytes : List Nat)
    (hplain : PlainStr fn) (hfn : fn ≠ "") (hbytes : ∀ b ∈ bytes, b < 256)
    (hne : bytes ≠ []) :
    (savePage store key content (some ⟨fn, "image/png", bytes⟩) =
      SaveResult.saved (kvPut store key (stringifyFileRecord fn "image/png"
        (dataUriOf "image/png" (arrayBufferToBase64 bytes))))) ∧
    parseJson (stringifyFileRecord fn "image/png"
        (dataUriOf "image/png" (arrayBufferToBase64 bytes))) =
      some (Json.obj [("fileName", Json.str fn), ("mimeType", Json.str "image/png"),
        ("content", Json.str (dataUriOf "image/png" (arrayBufferToBase64 bytes)))]) ∧
    servePage (kvPut store key (stringifyFileRecord fn "image/png"
        (dataUriOf "image/png" (arrayBufferToBase64 bytes)))) key =
      PageView.imagePreview
        (some (Json.str (dataUriOf "image/png" (arrayBufferToBase64 bytes)))) ∧
    decodeDataUri (dataUriOf "image/png" (arrayBufferToBase64 bytes)) = some bytes ∧
    (savePage store key content (some ⟨fn, "application/pdf", bytes⟩) =
      SaveResult.saved (kvPut store key (stringifyFileRecord fn "application/pdf"
        (dataUriOf "application/pdf" (arrayBufferToBase64 bytes))))) ∧
    servePage (kvPut store key (stringifyFileRecord fn "application/pdf"
        (dataUriOf "application/pdf" (arrayBufferToBase64 bytes)))) key =
      PageView.fileDownload (Json.str fn) "application/pdf" bytes := by
  have hlen : bytes.length > 0 := List.length_pos.mpr hne
  have hpng : parseJson (stringifyFileRecord fn "image/png"
      (dataUriOf "image/png" (arrayBufferToBase64 bytes))) =
      some (Json.obj [("fileName", Json.str fn), ("mimeType", Json.str "image/png"),
        ("content", Json.str (dataUriOf "image/png" (arrayBufferToBase64 bytes)))]) :=
    parseJson_stringifyFileRecord fn "image/png" _ hplain (by decide)
      (dataUri_plain_png bytes)
  have hpdf : parseJson (stringifyFileRecord fn "application/pdf"
      (dataUriOf "application/pdf" (arrayBufferToBase64 bytes))) =
      some (Json.obj [("fileName", Json.str fn), ("mimeType", Json.str "application/pdf"),
        ("content", Json.str (dataUriOf "application/pdf" (arrayBufferToBase64 bytes)))]) :=
    parseJson_stringifyFileRecord fn "application/pdf" _ hplain (by decide)
      (dataUri_plain_pdf bytes)
  have hcond : ∀ A B C : Json, fileNameTruthy (Json.obj [("fileName", Json.str fn),
      ("mimeType", A), ("content", B)]) = true := by
    intro A B C
    rw [fileNameTruthy, getField_fileName]
    simp [Json.truthy, hfn]
  refine ⟨?_, hpng, ?_, decodeDataUri_png bytes hbytes, ?_, ?_⟩
  · simp [savePage, hlen]
  · rw [servePage_parse_some (kvPut_self store key _) hpng,
      if_pos (by simp [Json.truthy, hcond _ _ Json.null])]
    rw [serveFileRecord, getField_mimeType]
    simp only [show startsWithL "image/".data "image/png".data = true from by decide,
      eq_self_iff_true, if_true, getField_content]
  · simp [savePage, hlen]
  · rw [servePage_parse_some (kvPut_self store key _) hpdf,
      if_pos (by simp [Json.truthy, hcond _ _ Json.null])]
    rw [serveFileRecord, getField_mimeType]
    simp only [show startsWithL "image/".data "application/pdf".data = false from by decide,
      Bool.false_eq_true, if_false, getField_content,
      decodeDataUri_pdf bytes hbytes, getField_fileName, Option.getD_some]

theorem C5_witness :
    PlainStr "report.pdf" ∧ ("report.pdf" : String) ≠ "" ∧
    (∀ b ∈ [72, 105, 33], b < 256) ∧ ([72, 105, 33] : List Nat) ≠ [] ∧
    (servePage (kvPut (fun _ => none) "pic" (stringifyFileRecord "report.pdf" "image/png"
        (dataUriOf "image/png" (arrayBufferToBase64 [72, 105, 33])))) "pic" =
      PageView.imagePreview
        (some (Json.str (dataUriOf "image/png" (arrayBufferToBase64 [72, 105, 33])))) ∧
     decodeDataUri (dataUriOf "image/png" (arrayBufferToBase64 [72, 105, 33])) =
       some [72, 105, 33] ∧
     servePage (kvPut (fun _ => none) "doc" (stringifyFileRecord "report.pdf" "application/pdf"
        (dataUriOf "application/pdf" (arrayBufferToBase64 [72, 105, 33])))) "doc" =
      PageView.fileDownload (Json.str "report.pdf") "application/pdf" [72, 105, 33]) :=
  ⟨by decide, by decide, by decide, by decide,
    (C5_upload_roundtrip (fun _ => none) "pic" none "report.pdf" [72, 105, 33]
      (by decide) (by decide) (by decide) (by decide)).2.2.1,
    (C5_upload_roundtrip (fun _ => none) "pic" none "report.pdf" [72, 105, 33]
      (by decide) (by decide) (by decide) (by decide)).2.2.2.1,
    (C5_upload_roundtrip (fun _ => none) "doc" none "report.pdf" [72, 105, 33]
      (by decide) (by decide) (by decide) (by decide)).2.2.2.2.2⟩
